import Mathlib

/-!
A shallow embedding of the cache simulator in src/csim.c: the set-associative
cache model with LRU replacement (init, evict, getData), the fscanf-driven
trace-replay loop (runTraceSim), and the required-argument check in main.
Machine integers are modelled as Nat, reduced modulo 2^32 (the unsigned int
counters of stats_t) and modulo 2^64 (unsigned long long addresses and the
LRU clock) at the points where the C code can wrap.
-/

/-- Wrap modulus of C unsigned int (the hits, misses, evictions counters). -/
def UINT_MOD : Nat := 2 ^ 32

/-- Wrap modulus of C unsigned long long (addresses and the LRU clock). -/
def ULL_MOD : Nat := 2 ^ 64

/-- Value of ULONG_MAX on the LP64 platform the simulator targets; the
initial incumbent of the victim scan (csim.c line 83). -/
def ULONG_MAX : Nat := 2 ^ 64 - 1

/-- One cache line slot: line_t of csim.c (valid flag, tag, lru stamp). -/
structure Line where
  valid : Bool
  tag : Nat
  lru : Nat
  deriving Repr, DecidableEq

/-- The zeroed line produced by init (csim.c lines 69-71). -/
def zeroLine : Line := { valid := false, tag := 0, lru := 0 }

/-- stats_t of csim.c: three unsigned int counters plus the unsigned long
long LRU clock. -/
structure Stats where
  hits : Nat
  misses : Nat
  evictions : Nat
  lru_count : Nat
  deriving Repr, DecidableEq

/-- Cache geometry: the three argument values plus the derived set count
(main sets num_sets = 1 << idx_bits). -/
structure CacheCfg where
  idx_bits : Nat
  assoc : Nat
  block_bits : Nat
  num_sets : Nat
  deriving Repr, DecidableEq

/-- The simulator state: the cache (a list of sets, each a list of lines,
mirroring the two-level array of csim.c) and the stats global. -/
structure SimState where
  cache : List (List Line)
  stats : Stats
  deriving Repr, DecidableEq

/-- Read a line of a set, out of range defaulting to the zeroed line. -/
def lineAt (s : List Line) (j : Nat) : Line := s.getD j zeroLine

/-- init of csim.c (lines 63-74): num_sets sets of assoc zeroed lines. -/
def initCache (cfg : CacheCfg) : List (List Line) :=
  List.replicate cfg.num_sets (List.replicate cfg.assoc zeroLine)

/-- Initial state: freshly initialized cache, zero-initialized stats global. -/
def initState (cfg : CacheCfg) : SimState :=
  { cache := initCache cfg,
    stats := { hits := 0, misses := 0, evictions := 0, lru_count := 0 } }

/-- The victim-selection loop of evict (csim.c lines 84-89): walk the set
keeping the index and lru value of the smallest lru seen so far; the update
fires only on strict decrease, so the first index attaining the minimum
wins. -/
def victimLoop : List Line → Nat × Nat → Nat → Nat × Nat
  | [], acc, _ => acc
  | ln :: rest, acc, i =>
    if acc.2 > ln.lru then victimLoop rest (i, ln.lru) (i + 1)
    else victimLoop rest acc (i + 1)

/-- The index evict_at after the loop, started at (evict_at = 0,
lru = ULONG_MAX) (csim.c lines 82-83). -/
def findVictim (s : List Line) : Nat := (victimLoop s (0, ULONG_MAX) 0).1

/-- evict of csim.c (lines 81-98): select the victim, count an eviction iff
it is valid, overwrite it with the new tag stamped at the current clock
value, then advance the clock (post-increment on line 97).  Returns the
updated set and stats. -/
def evict (s : List Line) (tag : Nat) (stats : Stats) : List Line × Stats :=
  let evict_at := findVictim s
  let stats1 := if (lineAt s evict_at).valid then
      { stats with evictions := (stats.evictions + 1) % UINT_MOD } else stats
  let s1 := s.set evict_at { valid := true, tag := tag, lru := stats1.lru_count }
  (s1, { stats1 with lru_count := (stats1.lru_count + 1) % ULL_MOD })

/-- Tag extraction of getData (csim.c line 106). -/
def tagOf (cfg : CacheCfg) (addr : Nat) : Nat :=
  addr >>> (cfg.block_bits + cfg.idx_bits)

/-- Set-index extraction of getData (csim.c line 107). -/
def setIndexOf (cfg : CacheCfg) (addr : Nat) : Nat :=
  (addr >>> cfg.block_bits) &&& (cfg.num_sets - 1)

/-- The set getData operates on for a given address. -/
def tgtSet (cfg : CacheCfg) (addr : Nat) (st : SimState) : List Line :=
  st.cache.getD (setIndexOf cfg addr) []

/-- The hit scan of getData (csim.c lines 109-117): find the first valid line
whose tag matches and restamp its lru with the current clock value; none on
a miss. -/
def hitScan (tag stamp : Nat) : List Line → Option (List Line)
  | [] => none
  | ln :: rest =>
    if ln.valid then
      if ln.tag = tag then some ({ ln with lru := stamp } :: rest)
      else (hitScan tag stamp rest).map (fun r => ln :: r)
    else (hitScan tag stamp rest).map (fun r => ln :: r)

/-- getData of csim.c (lines 105-121): on a hit restamp the matched line,
advance the clock and count a hit; on a miss count a miss and call evict. -/
def getData (cfg : CacheCfg) (addr : Nat) (st : SimState) : SimState :=
  match hitScan (tagOf cfg addr) st.stats.lru_count (tgtSet cfg addr st) with
  | some s1 =>
      { cache := st.cache.set (setIndexOf cfg addr) s1,
        stats := { st.stats with
                   hits := (st.stats.hits + 1) % UINT_MOD,
                   lru_count := (st.stats.lru_count + 1) % ULL_MOD } }
  | none =>
      let stats1 := { st.stats with misses := (st.stats.misses + 1) % UINT_MOD }
      let res := evict (tgtSet cfg addr st) (tagOf cfg addr) stats1
      { cache := st.cache.set (setIndexOf cfg addr) res.1, stats := res.2 }

/-- The three access outcomes of the spec. -/
inductive Outcome where
  | Hit
  | MissNoEvict
  | MissWithEvict
  deriving Repr, DecidableEq

/-- Outcome of one access, read off the branch structure of getData and
evict: Hit when the scan matches; otherwise MissWithEvict exactly when the
chosen victim line is valid, the one case in which stats.evictions is
bumped (csim.c lines 91-93). -/
def outcomeOf (cfg : CacheCfg) (addr : Nat) (st : SimState) : Outcome :=
  match hitScan (tagOf cfg addr) st.stats.lru_count (tgtSet cfg addr st) with
  | some _ => Outcome.Hit
  | none =>
    if (lineAt (tgtSet cfg addr st) (findVictim (tgtSet cfg addr st))).valid
    then Outcome.MissWithEvict else Outcome.MissNoEvict

/-- The switch of runTraceSim (csim.c lines 134-146): L and S make one
getData call, M makes two, any other operation character none. -/
def processOp (cfg : CacheCfg) (op : Char) (addr : Nat) (st : SimState) : SimState :=
  if op = 'L' then getData cfg addr st
  else if op = 'S' then getData cfg addr st
  else if op = 'M' then getData cfg addr (getData cfg addr st)
  else st

/-- C isspace characters, skipped by the whitespace handling of fscanf. -/
def isWS (c : Char) : Bool :=
  c == ' ' || c == '\t' || c == '\n' || c == '\r' || c.toNat == 11 || c.toNat == 12

/-- Drop leading whitespace. -/
def skipWS : List Char → List Char
  | [] => []
  | c :: rest => if isWS c then skipWS rest else c :: rest

/-- Hex digit value accepted by the %llx conversion. -/
def hexDigitVal (c : Char) : Option Nat :=
  if '0' ≤ c ∧ c ≤ '9' then some (c.toNat - 48)
  else if 'a' ≤ c ∧ c ≤ 'f' then some (c.toNat - 97 + 10)
  else if 'A' ≤ c ∧ c ≤ 'F' then some (c.toNat - 65 + 10)
  else none

/-- Longest run of hex digits, accumulating the value. -/
def scanHex : List Char → Nat → Nat × List Char
  | [], acc => (acc, [])
  | c :: rest, acc =>
    match hexDigitVal c with
    | some d => scanHex rest (acc * 16 + d)
    | none => (acc, c :: rest)

/-- Decimal digit value accepted by the %d conversion. -/
def decDigitVal (c : Char) : Option Nat :=
  if '0' ≤ c ∧ c ≤ '9' then some (c.toNat - 48) else none

/-- Longest run of decimal digits, accumulating the value. -/
def scanDec : List Char → Nat → Nat × List Char
  | [], acc => (acc, [])
  | c :: rest, acc =>
    match decDigitVal c with
    | some d => scanDec rest (acc * 10 + d)
    | none => (acc, c :: rest)

/-- The %llx conversion: skip whitespace, then read one or more hex digits.
(The optional sign and 0x base prefix that scanf also tolerates never occur
in valgrind traces and are not modelled.) -/
def parseHexTok (cs : List Char) : Option (Nat × List Char) :=
  match skipWS cs with
  | [] => none
  | c :: rest =>
    match hexDigitVal c with
    | some d => some (scanHex rest d)
    | none => none

/-- Optional sign accepted by the %d conversion: the flag records whether the
value is negated. -/
def parseSign (cs : List Char) : Bool × List Char :=
  match cs with
  | [] => (false, [])
  | c :: rest =>
    if c = '-' then (true, rest)
    else if c = '+' then (false, rest)
    else (false, c :: rest)

/-- The %d conversion: skip whitespace, optional sign, one or more decimal
digits. -/
def parseDecTok (cs : List Char) : Option (Int × List Char) :=
  let sg := parseSign (skipWS cs)
  match sg.2 with
  | [] => none
  | c :: rest2 =>
    match decDigitVal c with
    | some d =>
      some (if sg.1 then -(((scanDec rest2 d).1 : Nat) : Int)
            else (((scanDec rest2 d).1 : Nat) : Int), (scanDec rest2 d).2)
    | none => none

/-- One step of fscanf(trace, " %c %llx,%d", ...) (csim.c line 133): the
three converted values and the unconsumed input, or none when the input
fails to match the format (fscanf then returns fewer than 3 conversions and
the while loop exits).  The address is stored into an unsigned long long. -/
def fscanfRecord (cs : List Char) : Option ((Char × Nat × Int) × List Char) :=
  match skipWS cs with
  | [] => none
  | op :: cs1 =>
    match parseHexTok cs1 with
    | none => none
    | some (addr, cs2) =>
      match cs2 with
      | [] => none
      | c :: cs3 =>
        if c = ',' then
          match parseDecTok cs3 with
          | none => none
          | some (sz, cs4) => some ((op, addr % ULL_MOD, sz), cs4)
        else none

/-- The while loop of runTraceSim (csim.c lines 133-147), with explicit fuel
to make the recursion structural; every successful fscanf step consumes at
least one character, so fuel = input length + 1 never runs out. -/
def runLoopF (cfg : CacheCfg) : Nat → SimState → List Char → SimState
  | 0, st, _ => st
  | fuel + 1, st, cs =>
    match fscanfRecord cs with
    | none => st
    | some (r, rest) => runLoopF cfg fuel (processOp cfg r.1 r.2.1 st) rest

/-- runTraceSim of csim.c (lines 127-149), replaying the whole input. -/
def runTraceSim (cfg : CacheCfg) (st : SimState) (cs : List Char) : SimState :=
  runLoopF cfg (cs.length + 1) st cs

/-- Number of getData calls the loop performs on the given input: one for L
and S records, two for M records, zero otherwise. -/
def numAccessesF : Nat → List Char → Nat
  | 0, _ => 0
  | fuel + 1, cs =>
    match fscanfRecord cs with
    | none => 0
    | some (r, rest) =>
      (if r.1 = 'L' then 1 else if r.1 = 'S' then 1
       else if r.1 = 'M' then 2 else 0) + numAccessesF fuel rest

/-- Total access count of a replay. -/
def numAccesses (cs : List Char) : Nat := numAccessesF (cs.length + 1) cs

/-- The required-argument check of main (csim.c line 202): it fires only when
a value IS zero or the trace path is missing; the atoi results are C ints,
modelled as Int. -/
def argsCheckFails (idx_bits assoc block_bits : Int) (t_addr : Option (List Char)) : Bool :=
  idx_bits == 0 || assoc == 0 || block_bits == 0 || t_addr.isNone

/-- main of csim.c (lines 202-222): when the required-argument check fires,
main prints the error message and calls help, and help prints the usage and
calls exit(0) (csim.c line 166) — so the process terminates with STATUS 0,
and the exit(1) on line 205 is unreachable dead code; init and runTraceSim
never run on that path, so no stats are produced (modelled as none).
Otherwise main derives the geometry (num_sets = 1 << idx_bits), initializes
the cache, replays the trace, prints the summary and returns 0.  The first
component is the process exit status, the second the stats handed to the
summary printer (none when the error path was taken).  Negative geometry
values pass the check and reach 1 << negative, undefined behaviour in C;
the model clamps them with Int.toNat, and no theorem below depends on the
value computed in that case. -/
def mainRun (idx_bits assoc block_bits : Int) (t_addr : Option (List Char))
    (input : List Char) : Nat × Option Stats :=
  if argsCheckFails idx_bits assoc block_bits t_addr then (0, none)
  else
    let cfg : CacheCfg :=
      { idx_bits := idx_bits.toNat, assoc := assoc.toNat,
        block_bits := block_bits.toNat, num_sets := 1 <<< idx_bits.toNat }
    (0, some (runTraceSim cfg (initState cfg) input).stats)

/-- The set at a given index of the cache array. -/
def setAt (st : SimState) (i : Nat) : List Line := st.cache.getD i []

/-- Structural well-formedness enforced by the C types and by init: the cache
array has num_sets entries, num_sets is the power of two main derives from
idx_bits, associativity is at least one, and every set has assoc lines. -/
@[reducible] def WfState (cfg : CacheCfg) (st : SimState) : Prop :=
  st.cache.length = cfg.num_sets ∧ cfg.num_sets = 2 ^ cfg.idx_bits ∧
  1 ≤ cfg.assoc ∧ ∀ i, i < st.cache.length → (setAt st i).length = cfg.assoc

/-- No two valid lines of one set carry the same tag. -/
@[reducible] def TagsOk (st : SimState) : Prop :=
  ∀ i, i < st.cache.length → ∀ j, j < (setAt st i).length → ∀ k, k < (setAt st i).length →
    j ≠ k → (lineAt (setAt st i) j).valid = true → (lineAt (setAt st i) k).valid = true →
    (lineAt (setAt st i) j).tag ≠ (lineAt (setAt st i) k).tag

/-- Every stored lru stamp fits the unsigned long long field. -/
@[reducible] def LruWidthOk (st : SimState) : Prop :=
  ∀ i, i < st.cache.length → ∀ j, j < (setAt st i).length →
    (lineAt (setAt st i) j).lru ≤ ULONG_MAX

/-- Every valid line was stamped strictly before the current clock value. -/
@[reducible] def LruFreshOk (st : SimState) : Prop :=
  ∀ i, i < st.cache.length → ∀ j, j < (setAt st i).length →
    (lineAt (setAt st i) j).valid = true →
    (lineAt (setAt st i) j).lru < st.stats.lru_count

/-- The lru stamps of valid lines are pairwise distinct across the whole
cache. -/
@[reducible] def LruDistinctOk (st : SimState) : Prop :=
  ∀ i, i < st.cache.length → ∀ k, k < st.cache.length →
  ∀ j, j < (setAt st i).length → ∀ l, l < (setAt st k).length → ¬(i = k ∧ j = l) →
    (lineAt (setAt st i) j).valid = true → (lineAt (setAt st k) l).valid = true →
    (lineAt (setAt st i) j).lru ≠ (lineAt (setAt st k) l).lru

/-- Geometry of a single-set two-way cache (s = 0 so every address maps to
set 0, E = 2, b = 0), used by the concrete scenarios below. -/
def cfgB : CacheCfg := { idx_bits := 0, assoc := 2, block_bits := 0, num_sets := 1 }

/-- A two-set direct-mapped geometry (s = 1, E = 1, b = 0). -/
def cfgW : CacheCfg := { idx_bits := 1, assoc := 1, block_bits := 0, num_sets := 2 }

/-- State of the single-set two-way cache after accessing tags 1, 2, 3 from
the initial state. -/
def stC1pre : SimState :=
  getData cfgB 3 (getData cfgB 2 (getData cfgB 1 (initState cfgB)))

/-- State of the single-set two-way cache after accessing tags 0 and 1
(two distinct tags for its two lines) from the initial state. -/
def stC7 : SimState := getData cfgB 1 (getData cfgB 0 (initState cfgB))

/-- State of the single-set two-way cache after one access (tag 5): line 0 is
valid with lru stamp 0, line 1 is still invalid with lru 0. -/
def stC3 : SimState := getData cfgB 5 (initState cfgB)

/-- Trace text with a well-formed first record, a malformed middle line (the
address z is not hex, so fscanf stops short of 3 conversions there), and a
well-formed last record repeating the first address. -/
def tr6 : List Char :=
  [ 'L', ' ', '1', '0', ',', '1', '\n',
    'L', ' ', 'z', ',', '1', '\n',
    'L', ' ', '1', '0', ',', '1' ]

/-! ### List access helpers -/

theorem getD_set_self {α : Type} (l : List α) (i : Nat) (a d : α) (h : i < l.length) :
    (l.set i a).getD i d = a := by
  induction l generalizing i with
  | nil => simp at h
  | cons x xs ih =>
    cases i with
    | zero => rfl
    | succ n =>
      simp only [List.set_cons_succ, List.getD_cons_succ]
      exact ih n (by simpa using h)

theorem getD_set_ne {α : Type} (l : List α) (i j : Nat) (a d : α) (h : i ≠ j) :
    (l.set i a).getD j d = l.getD j d := by
  induction l generalizing i j with
  | nil => simp
  | cons x xs ih =>
    cases i with
    | zero =>
      cases j with
      | zero => exact absurd rfl h
      | succ m => simp
    | succ n =>
      cases j with
      | zero => simp
      | succ m =>
        simp only [List.set_cons_succ, List.getD_cons_succ]
        exact ih n m (fun hh => h (by rw [hh]))

theorem lineAt_cons_zero (ln : Line) (rest : List Line) : lineAt (ln :: rest) 0 = ln := rfl

theorem lineAt_cons_succ (ln : Line) (rest : List Line) (j : Nat) :
    lineAt (ln :: rest) (j + 1) = lineAt rest j := rfl

/-! ### Hit-scan characterization -/

theorem hitScan_none_iff (t stamp : Nat) (s : List Line) :
    hitScan t stamp s = none ↔
      ∀ j, j < s.length → ¬((lineAt s j).valid = true ∧ (lineAt s j).tag = t) := by
  induction s with
  | nil => simp [hitScan]
  | cons ln rest ih =>
    by_cases hv : ln.valid = true
    · by_cases ht : ln.tag = t
      · constructor
        · intro h; simp [hitScan, hv, ht] at h
        · intro h; exact absurd ⟨hv, ht⟩ (h 0 (by simp))
      · simp only [hitScan, hv, if_true, ht, if_false, Option.map_eq_none']
        rw [ih]
        constructor
        · intro h j hj
          cases j with
          | zero => intro hc; exact ht hc.2
          | succ m => exact h m (by simpa using hj)
        · intro h m hm
          exact h (m + 1) (by simpa using hm)
    · have hv' : ln.valid = false := by
        cases hb : ln.valid with
        | true => exact absurd hb hv
        | false => rfl
      simp only [hitScan, hv', Bool.false_eq_true, if_false, Option.map_eq_none']
      rw [ih]
      constructor
      · intro h j hj
        cases j with
        | zero => intro hc; rw [lineAt_cons_zero] at hc; exact hv hc.1
        | succ m => exact h m (by simpa using hj)
      · intro h m hm
        exact h (m + 1) (by simpa using hm)

theorem hitScan_some_spec (t stamp : Nat) (s s1 : List Line)
    (h : hitScan t stamp s = some s1) :
    ∃ j, j < s.length ∧ (lineAt s j).valid = true ∧ (lineAt s j).tag = t ∧
      s1 = s.set j { valid := (lineAt s j).valid, tag := (lineAt s j).tag, lru := stamp } ∧
      ∀ k, k < j → ¬((lineAt s k).valid = true ∧ (lineAt s k).tag = t) := by
  induction s generalizing s1 with
  | nil => simp [hitScan] at h
  | cons ln rest ih =>
    by_cases hv : ln.valid = true
    · by_cases ht : ln.tag = t
      · refine ⟨0, by simp, hv, ht, ?_, fun k hk => absurd hk (Nat.not_lt_zero k)⟩
        simp only [hitScan, hv, if_true, ht, Option.some.injEq] at h
        rw [← h]
        simp [lineAt_cons_zero, hv, ht]
      · have hstep : (hitScan t stamp rest).map (fun r => ln :: r) = some s1 := by
          simpa [hitScan, hv, ht] using h
        obtain ⟨r1, hr1, hs1⟩ : ∃ r1, hitScan t stamp rest = some r1 ∧ s1 = ln :: r1 := by
          cases hh : hitScan t stamp rest with
          | none => rw [hh] at hstep; simp at hstep
          | some r =>
            rw [hh] at hstep; simp only [Option.map_some', Option.some.injEq] at hstep
            exact ⟨r, rfl, hstep.symm⟩
        obtain ⟨j, hj, hjv, hjt, hset, hmin⟩ := ih r1 hr1
        refine ⟨j + 1, by simpa using hj, hjv, hjt, ?_, ?_⟩
        · rw [hs1, hset]; rfl
        · intro k hk
          cases k with
          | zero => intro hc; exact ht hc.2
          | succ m => exact hmin m (by omega)
    · have hv' : ln.valid = false := by
        cases hb : ln.valid with
        | true => exact absurd hb hv
        | false => rfl
      have hstep : (hitScan t stamp rest).map (fun r => ln :: r) = some s1 := by
        simpa [hitScan, hv'] using h
      obtain ⟨r1, hr1, hs1⟩ : ∃ r1, hitScan t stamp rest = some r1 ∧ s1 = ln :: r1 := by
        cases hh : hitScan t stamp rest with
        | none => rw [hh] at hstep; simp at hstep
        | some r =>
          rw [hh] at hstep; simp only [Option.map_some', Option.some.injEq] at hstep
          exact ⟨r, rfl, hstep.symm⟩
      obtain ⟨j, hj, hjv, hjt, hset, hmin⟩ := ih r1 hr1
      refine ⟨j + 1, by simpa using hj, hjv, hjt, ?_, ?_⟩
      · rw [hs1, hset]; rfl
      · intro k hk
        cases k with
        | zero => intro hc; rw [lineAt_cons_zero] at hc; exact hv hc.1
        | succ m => exact hmin m (by omega)

theorem hitScan_length (t stamp : Nat) (s s1 : List Line)
    (h : hitScan t stamp s = some s1) : s1.length = s.length := by
  obtain ⟨j, _, _, _, hset, _⟩ := hitScan_some_spec t stamp s s1 h
  rw [hset, List.length_set]

/-! ### Victim-scan characterization -/

theorem victimLoop_spec (s : List Line) : ∀ (ea lruv i : Nat),
    ((victimLoop s (ea, lruv) i).2 ≤ lruv ∧
      (∀ j, j < s.length → (victimLoop s (ea, lruv) i).2 ≤ (lineAt s j).lru)) ∧
    ((victimLoop s (ea, lruv) i = (ea, lruv) ∧
        ∀ j, j < s.length → lruv ≤ (lineAt s j).lru) ∨
      (∃ j, j < s.length ∧ victimLoop s (ea, lruv) i = (i + j, (lineAt s j).lru) ∧
        (lineAt s j).lru < lruv ∧
        ∀ k, k < j → (lineAt s j).lru < (lineAt s k).lru)) := by
  induction s with
  | nil =>
    intro ea lruv i
    exact ⟨⟨le_refl _, fun j hj => absurd hj (Nat.not_lt_zero j)⟩,
      Or.inl ⟨rfl, fun j hj => absurd hj (Nat.not_lt_zero j)⟩⟩
  | cons ln rest ih =>
    intro ea lruv i
    by_cases hlt : lruv > ln.lru
    · have heq : victimLoop (ln :: rest) (ea, lruv) i = victimLoop rest (i, ln.lru) (i + 1) := by
        simp [victimLoop, hlt]
      obtain ⟨⟨hb1, hb2⟩, hcase⟩ := ih i ln.lru (i + 1)
      refine ⟨⟨?_, ?_⟩, ?_⟩
      · rw [heq]; exact le_trans hb1 (le_of_lt hlt)
      · intro j hj
        cases j with
        | zero => rw [heq, lineAt_cons_zero]; exact hb1
        | succ m => rw [heq, lineAt_cons_succ]; exact hb2 m (by simpa using hj)
      · rcases hcase with ⟨hres, _⟩ | ⟨j, hj, hres, hlt2, hmin⟩
        · right
          refine ⟨0, by simp, ?_, by rw [lineAt_cons_zero]; exact hlt,
            fun k hk => absurd hk (Nat.not_lt_zero k)⟩
          rw [heq, hres, lineAt_cons_zero, Nat.add_zero]
        · right
          refine ⟨j + 1, by simpa using hj, ?_, ?_, ?_⟩
          · rw [heq, hres, lineAt_cons_succ]
            have harith : i + 1 + j = i + (j + 1) := by omega
            rw [harith]
          · rw [lineAt_cons_succ]; exact lt_trans hlt2 hlt
          · intro k hk
            cases k with
            | zero => rw [lineAt_cons_succ, lineAt_cons_zero]; exact hlt2
            | succ m => rw [lineAt_cons_succ, lineAt_cons_succ]; exact hmin m (by omega)
    · have hge : ln.lru ≥ lruv := by omega
      have heq : victimLoop (ln :: rest) (ea, lruv) i = victimLoop rest (ea, lruv) (i + 1) := by
        simp [victimLoop, hlt]
      obtain ⟨⟨hb1, hb2⟩, hcase⟩ := ih ea lruv (i + 1)
      refine ⟨⟨?_, ?_⟩, ?_⟩
      · rw [heq]; exact hb1
      · intro j hj
        cases j with
        | zero => rw [heq, lineAt_cons_zero]; exact le_trans hb1 hge
        | succ m => rw [heq, lineAt_cons_succ]; exact hb2 m (by simpa using hj)
      · rcases hcase with ⟨hres, hall⟩ | ⟨j, hj, hres, hlt2, hmin⟩
        · left
          refine ⟨by rw [heq]; exact hres, ?_⟩
          intro j hj
          cases j with
          | zero => rw [lineAt_cons_zero]; exact hge
          | succ m => rw [lineAt_cons_succ]; exact hall m (by simpa using hj)
        · right
          refine ⟨j + 1, by simpa using hj, ?_, ?_, ?_⟩
          · rw [heq, hres, lineAt_cons_succ]
            have harith : i + 1 + j = i + (j + 1) := by omega
            rw [harith]
          · rw [lineAt_cons_succ]; exact hlt2
          · intro k hk
            cases k with
            | zero =>
              rw [lineAt_cons_succ, lineAt_cons_zero]
              exact lt_of_lt_of_le hlt2 hge
            | succ m => rw [lineAt_cons_succ, lineAt_cons_succ]; exact hmin m (by omega)

theorem findVictim_lt (s : List Line) (h : s ≠ []) : findVictim s < s.length := by
  obtain ⟨_, hcase⟩ := victimLoop_spec s 0 ULONG_MAX 0
  rcases hcase with ⟨hres, _⟩ | ⟨j, hj, hres, _, _⟩
  · rw [findVictim, hres]
    cases s with
    | nil => exact absurd rfl h
    | cons a l => simp
  · rw [findVictim, hres]
    simpa using hj

theorem findVictim_min (s : List Line) (h : s ≠ [])
    (hw : ∀ j, j < s.length → (lineAt s j).lru ≤ ULONG_MAX) :
    (∀ j, j < s.length → (lineAt s (findVictim s)).lru ≤ (lineAt s j).lru) ∧
    (∀ k, k < findVictim s → (lineAt s (findVictim s)).lru < (lineAt s k).lru) := by
  obtain ⟨⟨hb1, hb2⟩, hcase⟩ := victimLoop_spec s 0 ULONG_MAX 0
  rcases hcase with ⟨hres, hall⟩ | ⟨j, hj, hres, _, hmin⟩
  · have h0 : 0 < s.length := by
      cases s with
      | nil => exact absurd rfl h
      | cons a l => simp
    have hv : findVictim s = 0 := by rw [findVictim, hres]
    have hMAX : (lineAt s 0).lru = ULONG_MAX := le_antisymm (hw 0 h0) (hall 0 h0)
    constructor
    · intro j2 hj2
      rw [hv, hMAX]
      exact hall j2 hj2
    · intro k hk
      rw [hv] at hk
      exact absurd hk (Nat.not_lt_zero k)
  · have hv : findVictim s = j := by rw [findVictim, hres]; simp
    have hval : (lineAt s (findVictim s)).lru = (lineAt s j).lru := by rw [hv]
    constructor
    · intro j2 hj2
      have hle := hb2 j2 hj2
      rw [hres] at hle
      rw [hval]
      exact hle
    · intro k hk
      rw [hv] at hk
      rw [hval]
      exact hmin k hk

/-! ### getData unfolding -/

theorem getData_of_hit (cfg : CacheCfg) (addr : Nat) (st : SimState) (s1 : List Line)
    (h : hitScan (tagOf cfg addr) st.stats.lru_count (tgtSet cfg addr st) = some s1) :
    getData cfg addr st =
      { cache := st.cache.set (setIndexOf cfg addr) s1,
        stats := { hits := (st.stats.hits + 1) % UINT_MOD,
                   misses := st.stats.misses,
                   evictions := st.stats.evictions,
                   lru_count := (st.stats.lru_count + 1) % ULL_MOD } } := by
  unfold getData
  rw [h]

theorem getData_of_miss (cfg : CacheCfg) (addr : Nat) (st : SimState)
    (h : hitScan (tagOf cfg addr) st.stats.lru_count (tgtSet cfg addr st) = none) :
    getData cfg addr st =
      { cache := st.cache.set (setIndexOf cfg addr)
          ((tgtSet cfg addr st).set (findVictim (tgtSet cfg addr st))
            { valid := true, tag := tagOf cfg addr, lru := st.stats.lru_count }),
        stats := { hits := st.stats.hits,
                   misses := (st.stats.misses + 1) % UINT_MOD,
                   evictions :=
                     if (lineAt (tgtSet cfg addr st) (findVictim (tgtSet cfg addr st))).valid
                     then (st.stats.evictions + 1) % UINT_MOD else st.stats.evictions,
                   lru_count := (st.stats.lru_count + 1) % ULL_MOD } } := by
  unfold getData
  rw [h]
  unfold evict
  by_cases hv : (lineAt (tgtSet cfg addr st) (findVictim (tgtSet cfg addr st))).valid
  · simp [hv]
  · simp [hv]

theorem outcomeOf_of_hit (cfg : CacheCfg) (addr : Nat) (st : SimState) (s1 : List Line)
    (h : hitScan (tagOf cfg addr) st.stats.lru_count (tgtSet cfg addr st) = some s1) :
    outcomeOf cfg addr st = Outcome.Hit := by
  unfold outcomeOf
  rw [h]

theorem outcomeOf_of_miss (cfg : CacheCfg) (addr : Nat) (st : SimState)
    (h : hitScan (tagOf cfg addr) st.stats.lru_count (tgtSet cfg addr st) = none) :
    outcomeOf cfg addr st =
      (if (lineAt (tgtSet cfg addr st) (findVictim (tgtSet cfg addr st))).valid
       then Outcome.MissWithEvict else Outcome.MissNoEvict) := by
  unfold outcomeOf
  rw [h]

/-! ### Geometry and well-formedness -/

theorem setIndexOf_eq_mod (cfg : CacheCfg) (addr : Nat) (h : cfg.num_sets = 2 ^ cfg.idx_bits) :
    setIndexOf cfg addr = (addr >>> cfg.block_bits) % cfg.num_sets := by
  rw [setIndexOf, h, Nat.and_pow_two_sub_one_eq_mod]

theorem setIndexOf_lt (cfg : CacheCfg) (addr : Nat) (h : cfg.num_sets = 2 ^ cfg.idx_bits) :
    setIndexOf cfg addr < cfg.num_sets := by
  rw [setIndexOf_eq_mod cfg addr h, h]
  exact Nat.mod_lt _ (Nat.two_pow_pos _)

theorem tgtSet_length (cfg : CacheCfg) (addr : Nat) (st : SimState) (hwf : WfState cfg st) :
    (tgtSet cfg addr st).length = cfg.assoc := by
  obtain ⟨h1, h2, _, h4⟩ := hwf
  exact h4 _ (by rw [h1]; exact setIndexOf_lt cfg addr h2)

theorem tgtSet_ne_nil (cfg : CacheCfg) (addr : Nat) (st : SimState) (hwf : WfState cfg st) :
    tgtSet cfg addr st ≠ [] := by
  have hlen := tgtSet_length cfg addr st hwf
  have hassoc := hwf.2.2.1
  intro hnil
  rw [hnil] at hlen
  simp at hlen
  omega

theorem setIndexOf_lt_cacheLength (cfg : CacheCfg) (addr : Nat) (st : SimState)
    (hwf : WfState cfg st) : setIndexOf cfg addr < st.cache.length := by
  rw [hwf.1]
  exact setIndexOf_lt cfg addr hwf.2.1

theorem wf_set (cfg : CacheCfg) (st : SimState) (si : Nat) (X : List Line) (stats1 : Stats)
    (hwf : WfState cfg st) (hX : X.length = cfg.assoc) :
    WfState cfg { cache := st.cache.set si X, stats := stats1 } := by
  obtain ⟨h1, h2, h3, h4⟩ := hwf
  refine ⟨by simpa using h1, h2, h3, ?_⟩
  intro i hi
  simp only [List.length_set] at hi
  show ((st.cache.set si X).getD i []).length = cfg.assoc
  by_cases hii : si = i
  · subst hii
    rw [getD_set_self st.cache si X [] hi]
    exact hX
  · rw [getD_set_ne st.cache si i X [] hii]
    exact h4 i hi

theorem wf_getData (cfg : CacheCfg) (addr : Nat) (st : SimState) (hwf : WfState cfg st) :
    WfState cfg (getData cfg addr st) := by
  cases hh : hitScan (tagOf cfg addr) st.stats.lru_count (tgtSet cfg addr st) with
  | some s1 =>
    rw [getData_of_hit cfg addr st s1 hh]
    exact wf_set cfg st _ s1 _ hwf
      (by rw [hitScan_length _ _ _ _ hh]; exact tgtSet_length cfg addr st hwf)
  | none =>
    rw [getData_of_miss cfg addr st hh]
    exact wf_set cfg st _ _ _ hwf
      (by rw [List.length_set]; exact tgtSet_length cfg addr st hwf)

/-! ### What one access does to the touched set -/

theorem tgtSet_after_set (cfg : CacheCfg) (addr : Nat) (st : SimState) (X : List Line)
    (stats1 : Stats) (hsi : setIndexOf cfg addr < st.cache.length) :
    tgtSet cfg addr { cache := st.cache.set (setIndexOf cfg addr) X, stats := stats1 } = X := by
  show (st.cache.set (setIndexOf cfg addr) X).getD (setIndexOf cfg addr) [] = X
  exact getD_set_self st.cache _ X [] hsi

theorem getData_present (cfg : CacheCfg) (addr : Nat) (st : SimState) (hwf : WfState cfg st) :
    ∃ j, j < (tgtSet cfg addr (getData cfg addr st)).length ∧
      (lineAt (tgtSet cfg addr (getData cfg addr st)) j).valid = true ∧
      (lineAt (tgtSet cfg addr (getData cfg addr st)) j).tag = tagOf cfg addr ∧
      (lineAt (tgtSet cfg addr (getData cfg addr st)) j).lru = st.stats.lru_count := by
  have hsi := setIndexOf_lt_cacheLength cfg addr st hwf
  cases hh : hitScan (tagOf cfg addr) st.stats.lru_count (tgtSet cfg addr st) with
  | some s1 =>
    obtain ⟨j, hj, hjv, hjt, hset, _⟩ := hitScan_some_spec _ _ _ _ hh
    rw [getData_of_hit cfg addr st s1 hh, tgtSet_after_set cfg addr st s1 _ hsi]
    refine ⟨j, by rw [hitScan_length _ _ _ _ hh]; exact hj, ?_, ?_, ?_⟩
    · rw [hset]
      show ((tgtSet cfg addr st).set j _ |>.getD j zeroLine).valid = true
      rw [getD_set_self _ j _ zeroLine hj]
      exact hjv
    · rw [hset]
      show ((tgtSet cfg addr st).set j _ |>.getD j zeroLine).tag = tagOf cfg addr
      rw [getD_set_self _ j _ zeroLine hj]
      exact hjt
    · rw [hset]
      show ((tgtSet cfg addr st).set j _ |>.getD j zeroLine).lru = st.stats.lru_count
      rw [getD_set_self _ j _ zeroLine hj]
  | none =>
    have hv := findVictim_lt (tgtSet cfg addr st) (tgtSet_ne_nil cfg addr st hwf)
    rw [getData_of_miss cfg addr st hh, tgtSet_after_set cfg addr st _ _ hsi]
    refine ⟨findVictim (tgtSet cfg addr st), by rw [List.length_set]; exact hv, ?_, ?_, ?_⟩
    · show ((tgtSet cfg addr st).set _ _ |>.getD _ zeroLine).valid = true
      rw [getD_set_self _ _ _ zeroLine hv]
    · show ((tgtSet cfg addr st).set _ _ |>.getD _ zeroLine).tag = tagOf cfg addr
      rw [getD_set_self _ _ _ zeroLine hv]
    · show ((tgtSet cfg addr st).set _ _ |>.getD _ zeroLine).lru = st.stats.lru_count
      rw [getD_set_self _ _ _ zeroLine hv]

theorem getData_then_hit (cfg : CacheCfg) (addr : Nat) (st : SimState) (hwf : WfState cfg st) :
    outcomeOf cfg addr (getData cfg addr st) = Outcome.Hit := by
  obtain ⟨j, hj, hv, ht, _⟩ := getData_present cfg addr st hwf
  cases hh : hitScan (tagOf cfg addr) (getData cfg addr st).stats.lru_count
      (tgtSet cfg addr (getData cfg addr st)) with
  | some s1 => exact outcomeOf_of_hit _ _ _ _ hh
  | none =>
    rw [hitScan_none_iff] at hh
    exact absurd ⟨hv, ht⟩ (hh j hj)

/-! ### Stats of one access, by outcome -/

theorem getData_stats_hit (cfg : CacheCfg) (addr : Nat) (st : SimState)
    (h : outcomeOf cfg addr st = Outcome.Hit) :
    (getData cfg addr st).stats =
      { hits := (st.stats.hits + 1) % UINT_MOD, misses := st.stats.misses,
        evictions := st.stats.evictions,
        lru_count := (st.stats.lru_count + 1) % ULL_MOD } := by
  cases hh : hitScan (tagOf cfg addr) st.stats.lru_count (tgtSet cfg addr st) with
  | some s1 => rw [getData_of_hit cfg addr st s1 hh]
  | none =>
    rw [outcomeOf_of_miss cfg addr st hh] at h
    by_cases hv : (lineAt (tgtSet cfg addr st) (findVictim (tgtSet cfg addr st))).valid
    · simp [hv] at h
    · simp [hv] at h

theorem getData_stats_missNo (cfg : CacheCfg) (addr : Nat) (st : SimState)
    (h : outcomeOf cfg addr st = Outcome.MissNoEvict) :
    (getData cfg addr st).stats =
      { hits := st.stats.hits, misses := (st.stats.misses + 1) % UINT_MOD,
        evictions := st.stats.evictions,
        lru_count := (st.stats.lru_count + 1) % ULL_MOD } := by
  cases hh : hitScan (tagOf cfg addr) st.stats.lru_count (tgtSet cfg addr st) with
  | some s1 => rw [outcomeOf_of_hit cfg addr st s1 hh] at h; exact absurd h (by simp)
  | none =>
    rw [outcomeOf_of_miss cfg addr st hh] at h
    by_cases hv : (lineAt (tgtSet cfg addr st) (findVictim (tgtSet cfg addr st))).valid
    · simp [hv] at h
    · rw [getData_of_miss cfg addr st hh]
      simp [hv]

theorem getData_stats_missEv (cfg : CacheCfg) (addr : Nat) (st : SimState)
    (h : outcomeOf cfg addr st = Outcome.MissWithEvict) :
    (getData cfg addr st).stats =
      { hits := st.stats.hits, misses := (st.stats.misses + 1) % UINT_MOD,
        evictions := (st.stats.evictions + 1) % UINT_MOD,
        lru_count := (st.stats.lru_count + 1) % ULL_MOD } := by
  cases hh : hitScan (tagOf cfg addr) st.stats.lru_count (tgtSet cfg addr st) with
  | some s1 => rw [outcomeOf_of_hit cfg addr st s1 hh] at h; exact absurd h (by simp)
  | none =>
    rw [outcomeOf_of_miss cfg addr st hh] at h
    by_cases hv : (lineAt (tgtSet cfg addr st) (findVictim (tgtSet cfg addr st))).valid
    · rw [getData_of_miss cfg addr st hh]
      simp [hv]
    · simp [hv] at h

/-! ### Parser consumption bounds and loop stepping -/

theorem skipWS_length_le (cs : List Char) : (skipWS cs).length ≤ cs.length := by
  induction cs with
  | nil => simp [skipWS]
  | cons c rest ih =>
    by_cases h : isWS c
    · simp only [skipWS, h, if_true]
      exact le_trans ih (by simp)
    · simp [skipWS, h]

theorem scanHex_length_le (cs : List Char) : ∀ acc, ((scanHex cs acc).2).length ≤ cs.length := by
  induction cs with
  | nil => intro acc; simp [scanHex]
  | cons c rest ih =>
    intro acc
    cases hd : hexDigitVal c with
    | some d =>
      simp only [scanHex, hd]
      exact le_trans (ih _) (by simp)
    | none => simp [scanHex, hd]

theorem scanDec_length_le (cs : List Char) : ∀ acc, ((scanDec cs acc).2).length ≤ cs.length := by
  induction cs with
  | nil => intro acc; simp [scanDec]
  | cons c rest ih =>
    intro acc
    cases hd : decDigitVal c with
    | some d =>
      simp only [scanDec, hd]
      exact le_trans (ih _) (by simp)
    | none => simp [scanDec, hd]

theorem parseSign_length_le (cs : List Char) : ((parseSign cs).2).length ≤ cs.length := by
  cases cs with
  | nil => simp [parseSign]
  | cons c rest =>
    by_cases h1 : c = '-'
    · simp [parseSign, h1]
    · by_cases h2 : c = '+'
      · simp [parseSign, h1, h2]
      · simp [parseSign, h1, h2]

theorem parseHexTok_some_length (cs : List Char) (a : Nat) (r : List Char)
    (h : parseHexTok cs = some (a, r)) : r.length < cs.length := by
  unfold parseHexTok at h
  cases hs : skipWS cs with
  | nil => simp only [hs] at h; exact Option.noConfusion h
  | cons c rest =>
    simp only [hs] at h
    have hrest : rest.length < cs.length := by
      have := skipWS_length_le cs
      rw [hs] at this
      simp at this
      omega
    cases hd : hexDigitVal c with
    | none => simp only [hd] at h; exact Option.noConfusion h
    | some d =>
      simp only [hd, Option.some.injEq] at h
      have h2 : (scanHex rest d).2 = r := by rw [h]
      have := scanHex_length_le rest d
      rw [h2] at this
      omega

theorem parseDecTok_some_length (cs : List Char) (a : Int) (r : List Char)
    (h : parseDecTok cs = some (a, r)) : r.length ≤ cs.length := by
  unfold parseDecTok at h
  have hsg : ((parseSign (skipWS cs)).2).length ≤ cs.length :=
    le_trans (parseSign_length_le (skipWS cs)) (skipWS_length_le cs)
  cases hp : (parseSign (skipWS cs)).2 with
  | nil => simp only [hp] at h; exact Option.noConfusion h
  | cons c rest2 =>
    simp only [hp] at h
    rw [hp] at hsg
    simp only [List.length_cons] at hsg
    cases hd : decDigitVal c with
    | none => simp only [hd] at h; exact Option.noConfusion h
    | some d =>
      simp only [hd, Option.some.injEq, Prod.mk.injEq] at h
      have h2 : (scanDec rest2 d).2 = r := h.2
      have := scanDec_length_le rest2 d
      rw [h2] at this
      omega

theorem fscanfRecord_some_length (cs : List Char) (r : Char × Nat × Int) (rest : List Char)
    (h : fscanfRecord cs = some (r, rest)) : rest.length < cs.length := by
  unfold fscanfRecord at h
  cases hs : skipWS cs with
  | nil => simp only [hs] at h; exact Option.noConfusion h
  | cons op cs1 =>
    simp only [hs] at h
    have hcs1 : cs1.length < cs.length := by
      have := skipWS_length_le cs
      rw [hs] at this
      simp at this
      omega
    cases hp : parseHexTok cs1 with
    | none => simp only [hp] at h; exact Option.noConfusion h
    | some ar =>
      obtain ⟨addr, cs2⟩ := ar
      simp only [hp] at h
      have hcs2 : cs2.length < cs1.length := parseHexTok_some_length cs1 addr cs2 hp
      cases cs2 with
      | nil => simp at h
      | cons c2 cs3 =>
        simp only [List.length_cons] at hcs2
        have h2 : (if c2 = ',' then
            match parseDecTok cs3 with
            | none => none
            | some (sz, cs4) => some ((op, addr % ULL_MOD, sz), cs4)
          else none) = some (r, rest) := h
        by_cases hc : c2 = ','
        · rw [if_pos hc] at h2
          cases hd : parseDecTok cs3 with
          | none => simp only [hd] at h2; exact Option.noConfusion h2
          | some szr =>
            obtain ⟨sz, cs4⟩ := szr
            simp only [hd, Option.some.injEq, Prod.mk.injEq] at h2
            have hcs4 : cs4.length ≤ cs3.length := parseDecTok_some_length cs3 sz cs4 hd
            have hr : cs4.length = rest.length := by rw [h2.2]
            omega
        · rw [if_neg hc] at h2
          exact Option.noConfusion h2

theorem runLoopF_succ (cfg : CacheCfg) (fuel : Nat) (st : SimState) (cs : List Char) :
    runLoopF cfg (fuel + 1) st cs =
      match fscanfRecord cs with
      | none => st
      | some (r, rest) => runLoopF cfg fuel (processOp cfg r.1 r.2.1 st) rest := rfl

theorem numAccessesF_succ (fuel : Nat) (cs : List Char) :
    numAccessesF (fuel + 1) cs =
      match fscanfRecord cs with
      | none => 0
      | some (r, rest) =>
        (if r.1 = 'L' then 1 else if r.1 = 'S' then 1
         else if r.1 = 'M' then 2 else 0) + numAccessesF fuel rest := rfl

theorem runLoopF_congr (cfg : CacheCfg) : ∀ (f1 : Nat) (cs : List Char) (st : SimState)
    (f2 : Nat), cs.length < f1 → cs.length < f2 →
    runLoopF cfg f1 st cs = runLoopF cfg f2 st cs := by
  intro f1
  induction f1 with
  | zero => intro cs st f2 h1 h2; omega
  | succ n ih =>
    intro cs st f2 h1 h2
    cases f2 with
    | zero => omega
    | succ m =>
      unfold runLoopF
      cases hr : fscanfRecord cs with
      | none => rfl
      | some pr =>
        obtain ⟨r, rest⟩ := pr
        have hlt := fscanfRecord_some_length cs r rest hr
        exact ih rest _ m (by omega) (by omega)

theorem runTraceSim_none (cfg : CacheCfg) (st : SimState) (cs : List Char)
    (h : fscanfRecord cs = none) : runTraceSim cfg st cs = st := by
  unfold runTraceSim runLoopF
  rw [h]

theorem runTraceSim_step (cfg : CacheCfg) (st : SimState) (cs : List Char)
    (r : Char × Nat × Int) (rest : List Char) (h : fscanfRecord cs = some (r, rest)) :
    runTraceSim cfg st cs = runTraceSim cfg (processOp cfg r.1 r.2.1 st) rest := by
  have hlt := fscanfRecord_some_length cs r rest h
  show runLoopF cfg (cs.length + 1) st cs = runLoopF cfg (rest.length + 1) _ rest
  have h1 : runLoopF cfg (cs.length + 1) st cs
      = runLoopF cfg cs.length (processOp cfg r.1 r.2.1 st) rest := by
    rw [runLoopF_succ, h]
  rw [h1]
  exact runLoopF_congr cfg cs.length rest _ (rest.length + 1) hlt (by omega)

theorem numAccessesF_congr : ∀ (f1 : Nat) (cs : List Char) (f2 : Nat),
    cs.length < f1 → cs.length < f2 → numAccessesF f1 cs = numAccessesF f2 cs := by
  intro f1
  induction f1 with
  | zero => intro cs f2 h1 h2; omega
  | succ n ih =>
    intro cs f2 h1 h2
    cases f2 with
    | zero => omega
    | succ m =>
      rw [numAccessesF_succ, numAccessesF_succ]
      cases hr : fscanfRecord cs with
      | none => rfl
      | some pr =>
        obtain ⟨r, rest⟩ := pr
        simp only [hr]
        have hlt := fscanfRecord_some_length cs r rest hr
        rw [ih rest m (by omega) (by omega)]

theorem numAccesses_none (cs : List Char) (h : fscanfRecord cs = none) : numAccesses cs = 0 := by
  unfold numAccesses numAccessesF
  rw [h]

theorem numAccesses_step (cs : List Char) (r : Char × Nat × Int) (rest : List Char)
    (h : fscanfRecord cs = some (r, rest)) :
    numAccesses cs = (if r.1 = 'L' then 1 else if r.1 = 'S' then 1
      else if r.1 = 'M' then 2 else 0) + numAccesses rest := by
  have hlt := fscanfRecord_some_length cs r rest h
  show numAccessesF (cs.length + 1) cs = _
  have h1 : numAccessesF (cs.length + 1) cs
      = (if r.1 = 'L' then 1 else if r.1 = 'S' then 1
         else if r.1 = 'M' then 2 else 0) + numAccessesF cs.length rest := by
    rw [numAccessesF_succ, h]
  rw [h1, numAccessesF_congr cs.length rest (rest.length + 1) hlt (by omega)]
  rfl

/-! ### Counter accounting -/

theorem getData_counts (cfg : CacheCfg) (addr : Nat) (st : SimState)
    (hb : st.stats.hits + st.stats.misses + 1 < UINT_MOD)
    (hev : st.stats.evictions ≤ st.stats.misses) :
    ((getData cfg addr st).stats.hits = st.stats.hits + 1 ∧
      (getData cfg addr st).stats.misses = st.stats.misses ∧
      (getData cfg addr st).stats.evictions = st.stats.evictions) ∨
    ((getData cfg addr st).stats.hits = st.stats.hits ∧
      (getData cfg addr st).stats.misses = st.stats.misses + 1 ∧
      ((getData cfg addr st).stats.evictions = st.stats.evictions ∨
        (getData cfg addr st).stats.evictions = st.stats.evictions + 1)) := by
  have hh : st.stats.hits + 1 < UINT_MOD := by omega
  have hm : st.stats.misses + 1 < UINT_MOD := by omega
  have he : st.stats.evictions + 1 < UINT_MOD := by omega
  cases ho : outcomeOf cfg addr st with
  | Hit =>
    left
    rw [getData_stats_hit cfg addr st ho]
    exact ⟨Nat.mod_eq_of_lt hh, rfl, rfl⟩
  | MissNoEvict =>
    right
    rw [getData_stats_missNo cfg addr st ho]
    exact ⟨rfl, Nat.mod_eq_of_lt hm, Or.inl rfl⟩
  | MissWithEvict =>
    right
    rw [getData_stats_missEv cfg addr st ho]
    exact ⟨rfl, Nat.mod_eq_of_lt hm, Or.inr (Nat.mod_eq_of_lt he)⟩

theorem access_counts_sum (cfg : CacheCfg) (addr : Nat) (st : SimState)
    (hb : st.stats.hits + st.stats.misses + 1 < UINT_MOD)
    (hev : st.stats.evictions ≤ st.stats.misses) :
    (getData cfg addr st).stats.hits + (getData cfg addr st).stats.misses
      = st.stats.hits + st.stats.misses + 1 ∧
    (getData cfg addr st).stats.evictions ≤ (getData cfg addr st).stats.misses := by
  rcases getData_counts cfg addr st hb hev with ⟨h1, h2, h3⟩ | ⟨h1, h2, h3⟩
  · exact ⟨by omega, by omega⟩
  · rcases h3 with h3 | h3
    · exact ⟨by omega, by omega⟩
    · exact ⟨by omega, by omega⟩

theorem processOp_L (cfg : CacheCfg) (addr : Nat) (st : SimState) :
    processOp cfg 'L' addr st = getData cfg addr st := by
  simp [processOp]

theorem processOp_S (cfg : CacheCfg) (addr : Nat) (st : SimState) :
    processOp cfg 'S' addr st = getData cfg addr st := by
  simp [processOp]

theorem processOp_M (cfg : CacheCfg) (addr : Nat) (st : SimState) :
    processOp cfg 'M' addr st = getData cfg addr (getData cfg addr st) := by
  simp [processOp]

theorem processOp_other (cfg : CacheCfg) (op : Char) (addr : Nat) (st : SimState)
    (h1 : op ≠ 'L') (h2 : op ≠ 'S') (h3 : op ≠ 'M') :
    processOp cfg op addr st = st := by
  simp [processOp, h1, h2, h3]

theorem runTraceSim_counts (cfg : CacheCfg) : ∀ (n : Nat) (cs : List Char),
    cs.length ≤ n → ∀ (st : SimState),
    st.stats.hits + st.stats.misses + numAccesses cs < UINT_MOD →
    st.stats.evictions ≤ st.stats.misses →
    (runTraceSim cfg st cs).stats.hits + (runTraceSim cfg st cs).stats.misses
      = st.stats.hits + st.stats.misses + numAccesses cs ∧
    (runTraceSim cfg st cs).stats.evictions ≤ (runTraceSim cfg st cs).stats.misses := by
  intro n
  induction n with
  | zero =>
    intro cs hlen st hb hev
    have hnil : cs = [] := List.length_eq_zero.mp (by omega)
    subst hnil
    rw [runTraceSim_none cfg st [] rfl, numAccesses_none [] rfl]
    exact ⟨by omega, hev⟩
  | succ n ih =>
    intro cs hlen st hb hev
    cases hr : fscanfRecord cs with
    | none =>
      rw [runTraceSim_none cfg st cs hr, numAccesses_none cs hr]
      exact ⟨by omega, hev⟩
    | some pr =>
      obtain ⟨r, rest⟩ := pr
      have hlt := fscanfRecord_some_length cs r rest hr
      have hstep := runTraceSim_step cfg st cs r rest hr
      have hnum := numAccesses_step cs r rest hr
      by_cases hL : r.1 = 'L'
      · have hw : (if r.1 = 'L' then 1 else if r.1 = 'S' then 1
            else if r.1 = 'M' then 2 else 0) = 1 := by simp [hL]
        rw [hw] at hnum
        rw [hstep, hL, processOp_L]
        rw [hnum] at hb
        obtain ⟨hs1, hs2⟩ := access_counts_sum cfg r.2.1 st (by omega) hev
        obtain ⟨hr1, hr2⟩ := ih rest (by omega) (getData cfg r.2.1 st) (by omega) hs2
        refine ⟨?_, hr2⟩
        rw [hr1, hs1, hnum]
        omega
      · by_cases hS : r.1 = 'S'
        · have hw : (if r.1 = 'L' then 1 else if r.1 = 'S' then 1
              else if r.1 = 'M' then 2 else 0) = 1 := by simp [hL, hS]
          rw [hw] at hnum
          rw [hstep, hS, processOp_S]
          rw [hnum] at hb
          obtain ⟨hs1, hs2⟩ := access_counts_sum cfg r.2.1 st (by omega) hev
          obtain ⟨hr1, hr2⟩ := ih rest (by omega) (getData cfg r.2.1 st) (by omega) hs2
          refine ⟨?_, hr2⟩
          rw [hr1, hs1, hnum]
          omega
        · by_cases hM : r.1 = 'M'
          · have hw : (if r.1 = 'L' then 1 else if r.1 = 'S' then 1
                else if r.1 = 'M' then 2 else 0) = 2 := by simp [hL, hS, hM]
            rw [hw] at hnum
            rw [hstep, hM, processOp_M]
            rw [hnum] at hb
            obtain ⟨hs1, hs2⟩ := access_counts_sum cfg r.2.1 st (by omega) hev
            obtain ⟨ht1, ht2⟩ := access_counts_sum cfg r.2.1 (getData cfg r.2.1 st)
              (by omega) hs2
            obtain ⟨hr1, hr2⟩ := ih rest (by omega)
              (getData cfg r.2.1 (getData cfg r.2.1 st)) (by omega) ht2
            refine ⟨?_, hr2⟩
            rw [hr1, ht1, hs1, hnum]
            omega
          · have hw : (if r.1 = 'L' then 1 else if r.1 = 'S' then 1
                else if r.1 = 'M' then 2 else 0) = 0 := by simp [hL, hS, hM]
            rw [hw] at hnum
            rw [hstep, processOp_other cfg r.1 r.2.1 st hL hS hM]
            rw [hnum] at hb
            obtain ⟨hr1, hr2⟩ := ih rest (by omega) st (by omega) hev
            refine ⟨?_, hr2⟩
            rw [hr1, hnum]
            omega

/-! ### Invariant preservation of one access -/

theorem lineAt_set_eq (s : List Line) (m : Nat) (nl : Line) (h : m < s.length) :
    lineAt (s.set m nl) m = nl := getD_set_self s m nl zeroLine h

theorem lineAt_set_ne (s : List Line) (m j : Nat) (nl : Line) (h : m ≠ j) :
    lineAt (s.set m nl) j = lineAt s j := getD_set_ne s m j nl zeroLine h

theorem setAt_set_eq_gen (st : SimState) (si : Nat) (X : List Line) (stats1 : Stats)
    (h : si < st.cache.length) :
    setAt { cache := st.cache.set si X, stats := stats1 } si = X :=
  getD_set_self st.cache si X [] h

theorem setAt_set_ne_gen (st : SimState) (si : Nat) (X : List Line) (stats1 : Stats)
    (i : Nat) (h : si ≠ i) :
    setAt { cache := st.cache.set si X, stats := stats1 } i = setAt st i :=
  getD_set_ne st.cache si i X [] h

theorem tgtSet_eq_setAt (cfg : CacheCfg) (addr : Nat) (st : SimState) :
    tgtSet cfg addr st = setAt st (setIndexOf cfg addr) := rfl

theorem line_unchanged (st : SimState) (si m : Nat) (nl : Line) (stats1 : Stats) (hsi : si < st.cache.length) (x y : Nat) (hxy : ¬(x = si ∧ y = m)) (hy : y < (setAt { cache := st.cache.set si ((setAt st si).set m nl), stats := stats1 } x).length) : lineAt (setAt { cache := st.cache.set si ((setAt st si).set m nl), stats := stats1 } x) y = lineAt (setAt st x) y ∧ y < (setAt st x).length := by
  by_cases hxsi : si = x
  · subst hxsi
    have hym : y ≠ m := fun hh => hxy ⟨rfl, hh⟩
    rw [setAt_set_eq_gen st si _ stats1 hsi] at hy ⊢
    rw [List.length_set] at hy
    rw [lineAt_set_ne _ _ _ _ (fun hh => hym hh.symm)]
    exact ⟨rfl, hy⟩
  · rw [setAt_set_ne_gen st si _ stats1 x hxsi] at hy ⊢
    exact ⟨rfl, hy⟩

theorem tagsOk_update (st : SimState) (si : Nat) (stats1 : Stats) (m : Nat) (nl : Line)
    (hsi : si < st.cache.length) (hm : m < (setAt st si).length)
    (htags : TagsOk st)
    (hnoclash : ∀ k, k < (setAt st si).length → k ≠ m →
      (lineAt (setAt st si) k).valid = true → nl.tag ≠ (lineAt (setAt st si) k).tag) :
    TagsOk { cache := st.cache.set si ((setAt st si).set m nl), stats := stats1 } := by
  intro i hi j hj k hk hne hvj hvk
  simp only [List.length_set] at hi
  by_cases hisi : si = i
  · subst hisi
    rw [setAt_set_eq_gen st si _ stats1 hsi] at hj hk hvj hvk ⊢
    rw [List.length_set] at hj hk
    by_cases hjm : j = m
    · have hmj := hjm.symm
      subst hmj
      have hkm : k ≠ m := fun hh => hne hh.symm
      rw [lineAt_set_eq _ _ _ hm] at hvj ⊢
      rw [lineAt_set_ne _ _ _ _ (fun hh => hkm hh.symm)] at hvk ⊢
      exact hnoclash k hk hkm hvk
    · by_cases hkm : k = m
      · have hmk := hkm.symm
        subst hmk
        rw [lineAt_set_eq _ _ _ hm] at hvk ⊢
        rw [lineAt_set_ne _ _ _ _ (fun hh => hjm hh.symm)] at hvj ⊢
        exact fun hh => hnoclash j hj hjm hvj hh.symm
      · rw [lineAt_set_ne _ _ _ _ (fun hh => hjm hh.symm)] at hvj ⊢
        rw [lineAt_set_ne _ _ _ _ (fun hh => hkm hh.symm)] at hvk ⊢
        exact htags si hsi j hj k hk hne hvj hvk
  · rw [setAt_set_ne_gen st si _ stats1 i hisi] at hj hk hvj hvk ⊢
    exact htags i hi j hj k hk hne hvj hvk

theorem lruOk_update (st : SimState) (si m : Nat) (nl : Line) (stats1 : Stats)
    (hsi : si < st.cache.length) (hm : m < (setAt st si).length)
    (hwidth : LruWidthOk st) (hfresh : LruFreshOk st) (hdist : LruDistinctOk st)
    (hclk : st.stats.lru_count < ULONG_MAX)
    (hnl : nl.lru = st.stats.lru_count)
    (hstats : stats1.lru_count = st.stats.lru_count + 1) :
    LruWidthOk { cache := st.cache.set si ((setAt st si).set m nl), stats := stats1 } ∧
    LruFreshOk { cache := st.cache.set si ((setAt st si).set m nl), stats := stats1 } ∧
    LruDistinctOk { cache := st.cache.set si ((setAt st si).set m nl), stats := stats1 } := by
  refine ⟨?_, ?_, ?_⟩
  · intro i hi j hj
    simp only [List.length_set] at hi
    by_cases hip : i = si ∧ j = m
    · obtain ⟨hi1, hj1⟩ := hip
      have hi2 := hi1.symm
      subst hi2
      have hj2 := hj1.symm
      subst hj2
      rw [setAt_set_eq_gen st si _ stats1 hsi]
      rw [lineAt_set_eq _ _ _ hm, hnl]
      omega
    · obtain ⟨heq, hj2⟩ := line_unchanged st si m nl stats1 hsi i j hip hj
      rw [heq]
      exact hwidth i hi j hj2
  · intro i hi j hj hv
    simp only [List.length_set] at hi
    show (lineAt (setAt _ i) j).lru < stats1.lru_count
    rw [hstats]
    by_cases hip : i = si ∧ j = m
    · obtain ⟨hi1, hj1⟩ := hip
      have hi2 := hi1.symm
      subst hi2
      have hj2 := hj1.symm
      subst hj2
      rw [setAt_set_eq_gen st si _ stats1 hsi]
      rw [lineAt_set_eq _ _ _ hm, hnl]
      omega
    · obtain ⟨heq, hj2⟩ := line_unchanged st si m nl stats1 hsi i j hip hj
      rw [heq] at hv ⊢
      have := hfresh i hi j hj2 hv
      omega
  · intro i hi k hk j hj l hl hne hvj hvl
    simp only [List.length_set] at hi hk
    by_cases hip : i = si ∧ j = m
    · obtain ⟨hi1, hj1⟩ := hip
      have hi2 := hi1.symm
      subst hi2
      have hj2 := hj1.symm
      subst hj2
      have hkp : ¬(k = si ∧ l = m) := by
        intro hc
        obtain ⟨hc1, hc2⟩ := hc
        exact hne ⟨hc1.symm, hc2.symm⟩
      rw [setAt_set_eq_gen st si _ stats1 hsi] at hj hvj ⊢
      rw [List.length_set] at hj
      rw [lineAt_set_eq _ _ _ hm] at hvj ⊢
      rw [hnl]
      obtain ⟨heql, hl2⟩ := line_unchanged st si m nl stats1 hsi k l hkp hl
      rw [heql] at hvl ⊢
      have := hfresh k hk l hl2 hvl
      omega
    · by_cases hkp : k = si ∧ l = m
      · obtain ⟨hk1, hl1⟩ := hkp
        have hk2 := hk1.symm
        subst hk2
        have hl2 := hl1.symm
        subst hl2
        rw [setAt_set_eq_gen st si _ stats1 hsi] at hl hvl ⊢
        rw [List.length_set] at hl
        rw [lineAt_set_eq _ _ _ hm] at hvl ⊢
        rw [hnl]
        obtain ⟨heqj, hj2⟩ := line_unchanged st si m nl stats1 hsi i j hip hj
        rw [heqj] at hvj ⊢
        have := hfresh i hi j hj2 hvj
        omega
      · obtain ⟨heqj, hj2⟩ := line_unchanged st si m nl stats1 hsi i j hip hj
        obtain ⟨heql, hl2⟩ := line_unchanged st si m nl stats1 hsi k l hkp hl
        rw [heqj] at hvj ⊢
        rw [heql] at hvl ⊢
        exact hdist i hi k hk j hj2 l hl2 hne hvj hvl

theorem getData_invariants (cfg : CacheCfg) (addr : Nat) (st : SimState)
    (hwf : WfState cfg st) (htags : TagsOk st) (hwidth : LruWidthOk st)
    (hfresh : LruFreshOk st) (hdist : LruDistinctOk st)
    (hclk : st.stats.lru_count < ULONG_MAX) :
    TagsOk (getData cfg addr st) ∧ LruWidthOk (getData cfg addr st) ∧
    LruFreshOk (getData cfg addr st) ∧ LruDistinctOk (getData cfg addr st) ∧
    (getData cfg addr st).stats.lru_count = st.stats.lru_count + 1 := by
  have hsi := setIndexOf_lt_cacheLength cfg addr st hwf
  have hull : st.stats.lru_count + 1 < ULL_MOD := by
    have hpos : 0 < 2 ^ 64 := Nat.two_pow_pos 64
    unfold ULONG_MAX at hclk
    unfold ULL_MOD
    omega
  have hmod : (st.stats.lru_count + 1) % ULL_MOD = st.stats.lru_count + 1 :=
    Nat.mod_eq_of_lt hull
  cases hh : hitScan (tagOf cfg addr) st.stats.lru_count (tgtSet cfg addr st) with
  | some s1 =>
    obtain ⟨m, hm, hmv, hmt, hset, _⟩ := hitScan_some_spec _ _ _ _ hh
    rw [getData_of_hit cfg addr st s1 hh, hset, tgtSet_eq_setAt]
    have hmlen : m < (setAt st (setIndexOf cfg addr)).length := hm
    have hlru := lruOk_update st (setIndexOf cfg addr) m
      { valid := (lineAt (setAt st (setIndexOf cfg addr)) m).valid,
        tag := (lineAt (setAt st (setIndexOf cfg addr)) m).tag,
        lru := st.stats.lru_count }
      { hits := (st.stats.hits + 1) % UINT_MOD, misses := st.stats.misses,
        evictions := st.stats.evictions,
        lru_count := (st.stats.lru_count + 1) % ULL_MOD }
      hsi hmlen hwidth hfresh hdist hclk rfl hmod
    refine ⟨?_, hlru.1, hlru.2.1, hlru.2.2, hmod⟩
    apply tagsOk_update st _ _ m _ hsi hmlen htags
    intro k hk hkm hvk
    exact htags (setIndexOf cfg addr) hsi m hmlen k hk (fun hh2 => hkm hh2.symm) hmv hvk
  | none =>
    have hnnil := tgtSet_ne_nil cfg addr st hwf
    have hvlt := findVictim_lt (tgtSet cfg addr st) hnnil
    have hnone := (hitScan_none_iff (tagOf cfg addr) st.stats.lru_count
      (tgtSet cfg addr st)).mp hh
    rw [getData_of_miss cfg addr st hh, tgtSet_eq_setAt]
    have hvlen : findVictim (setAt st (setIndexOf cfg addr))
        < (setAt st (setIndexOf cfg addr)).length := hvlt
    have hlru := lruOk_update st (setIndexOf cfg addr)
      (findVictim (setAt st (setIndexOf cfg addr)))
      { valid := true, tag := tagOf cfg addr, lru := st.stats.lru_count }
      { hits := st.stats.hits, misses := (st.stats.misses + 1) % UINT_MOD,
        evictions := if (lineAt (setAt st (setIndexOf cfg addr))
            (findVictim (setAt st (setIndexOf cfg addr)))).valid
          then (st.stats.evictions + 1) % UINT_MOD else st.stats.evictions,
        lru_count := (st.stats.lru_count + 1) % ULL_MOD }
      hsi hvlen hwidth hfresh hdist hclk rfl hmod
    refine ⟨?_, hlru.1, hlru.2.1, hlru.2.2, hmod⟩
    apply tagsOk_update st _ _ _ _ hsi hvlen htags
    intro k hk hkm hvk
    intro hteq
    exact hnone k hk ⟨hvk, hteq.symm⟩

/-! ### Initial-state facts -/

theorem getD_replicate {α : Type} (n : Nat) (x d : α) : ∀ (i : Nat), i < n →
    (List.replicate n x).getD i d = x := by
  induction n with
  | zero => intro i hi; omega
  | succ k ih =>
    intro i hi
    cases i with
    | zero => rfl
    | succ j => exact ih j (by omega)

theorem initState_wf (cfg : CacheCfg) (ha : 1 ≤ cfg.assoc)
    (hn : cfg.num_sets = 2 ^ cfg.idx_bits) : WfState cfg (initState cfg) := by
  refine ⟨by simp [initState, initCache], hn, ha, ?_⟩
  intro i hi
  show ((initState cfg).cache.getD i []).length = cfg.assoc
  simp only [initState, initCache] at hi ⊢
  rw [List.length_replicate] at hi
  rw [getD_replicate _ _ _ i hi]
  exact List.length_replicate _ _

theorem tgtSet_initState (cfg : CacheCfg) (addr : Nat)
    (hn : cfg.num_sets = 2 ^ cfg.idx_bits) :
    tgtSet cfg addr (initState cfg) = List.replicate cfg.assoc zeroLine := by
  show (initState cfg).cache.getD (setIndexOf cfg addr) [] = _
  simp only [initState, initCache]
  exact getD_replicate _ _ _ _ (setIndexOf_lt cfg addr hn)

theorem initState_first_access (cfg : CacheCfg) (addr : Nat) (ha : 1 ≤ cfg.assoc)
    (hn : cfg.num_sets = 2 ^ cfg.idx_bits) :
    outcomeOf cfg addr (initState cfg) = Outcome.MissNoEvict := by
  have hts := tgtSet_initState cfg addr hn
  have hnone : hitScan (tagOf cfg addr) (initState cfg).stats.lru_count
      (tgtSet cfg addr (initState cfg)) = none := by
    rw [hts, hitScan_none_iff]
    intro j hj
    rw [List.length_replicate] at hj
    have hline : lineAt (List.replicate cfg.assoc zeroLine) j = zeroLine :=
      getD_replicate _ _ _ j hj
    rw [hline]
    intro hc
    exact absurd hc.1 (by simp [zeroLine])
  rw [outcomeOf_of_miss cfg addr (initState cfg) hnone, hts]
  have hvlt : findVictim (List.replicate cfg.assoc zeroLine) < cfg.assoc := by
    have hne : List.replicate cfg.assoc zeroLine ≠ [] := by
      intro hnil
      have hl := congrArg List.length hnil
      simp at hl
      omega
    have := findVictim_lt (List.replicate cfg.assoc zeroLine) hne
    simpa using this
  have hline : lineAt (List.replicate cfg.assoc zeroLine)
      (findVictim (List.replicate cfg.assoc zeroLine)) = zeroLine :=
    getD_replicate _ _ _ _ hvlt
  rw [hline]
  simp [zeroLine]

/-! ### Claim theorems -/

/-- Claim C1 (code bug): the claim says that in a single set with
associativity E, accessing E+1 pairwise-distinct tags and then re-accessing
the first must evict the line holding tag t1 (the least recently used).
Evaluating the code at E = 2 with tags 1, 2, 3 and then 1: because the very
first insertion is stamped last_used = 0, equal to the initial value of the
still-invalid line, the second access already evicted tag 1 (lowest-index
tie-break), so before the final access no line holds tag 1 at all, and the
final access to tag 1 (a MissWithEvict, as claimed) evicts the line holding
tag 2 — not the line holding tag 1. -/
theorem spec_c1_bug :
    outcomeOf cfgB 1 stC1pre = Outcome.MissWithEvict ∧
    (∀ j, j < (tgtSet cfgB 1 stC1pre).length →
      ¬((lineAt (tgtSet cfgB 1 stC1pre) j).valid = true ∧
        (lineAt (tgtSet cfgB 1 stC1pre) j).tag = 1)) ∧
    (lineAt (tgtSet cfgB 1 stC1pre) (findVictim (tgtSet cfgB 1 stC1pre))).valid = true ∧
    (lineAt (tgtSet cfgB 1 stC1pre) (findVictim (tgtSet cfgB 1 stC1pre))).tag = 2 ∧
    stC1pre.stats.evictions = 1 := by
  decide

/-- Claim C2: getData decomposes the address as set_index =
(addr >> block_bits) mod num_sets (the mask with num_sets - 1) and tag =
addr >> (block_bits + idx_bits), reads and writes only the set at that
index, and hits exactly when a valid line of that set carries that tag. -/
theorem spec_c2 (cfg : CacheCfg) (addr : Nat) (st : SimState) (j : Nat)
    (hn : cfg.num_sets = 2 ^ cfg.idx_bits) :
    setIndexOf cfg addr = (addr >>> cfg.block_bits) % cfg.num_sets ∧
    tagOf cfg addr = addr >>> (cfg.block_bits + cfg.idx_bits) ∧
    (j ≠ setIndexOf cfg addr →
      (getData cfg addr st).cache.getD j [] = st.cache.getD j []) ∧
    (outcomeOf cfg addr st = Outcome.Hit ↔ ∃ k, k < (tgtSet cfg addr st).length ∧
      (lineAt (tgtSet cfg addr st) k).valid = true ∧
      (lineAt (tgtSet cfg addr st) k).tag = tagOf cfg addr) := by
  refine ⟨setIndexOf_eq_mod cfg addr hn, rfl, ?_, ?_⟩
  · intro hj
    cases hh : hitScan (tagOf cfg addr) st.stats.lru_count (tgtSet cfg addr st) with
    | some s1 =>
      rw [getData_of_hit cfg addr st s1 hh]
      exact getD_set_ne st.cache _ j s1 [] (fun hh2 => hj hh2.symm)
    | none =>
      rw [getData_of_miss cfg addr st hh]
      exact getD_set_ne st.cache _ j _ [] (fun hh2 => hj hh2.symm)
  · constructor
    · intro ho
      cases hh : hitScan (tagOf cfg addr) st.stats.lru_count (tgtSet cfg addr st) with
      | some s1 =>
        obtain ⟨k, hk, hv, ht, _, _⟩ := hitScan_some_spec _ _ _ _ hh
        exact ⟨k, hk, hv, ht⟩
      | none =>
        rw [outcomeOf_of_miss cfg addr st hh] at ho
        by_cases hvv : (lineAt (tgtSet cfg addr st)
            (findVictim (tgtSet cfg addr st))).valid
        · simp [hvv] at ho
        · simp [hvv] at ho
    · rintro ⟨k, hk, hv, ht⟩
      cases hh : hitScan (tagOf cfg addr) st.stats.lru_count (tgtSet cfg addr st) with
      | some s1 => exact outcomeOf_of_hit cfg addr st s1 hh
      | none =>
        rw [hitScan_none_iff] at hh
        exact absurd ⟨hv, ht⟩ (hh k hk)

/-- Witness for C2 at the two-set direct-mapped geometry, address 3: the
decomposition equations hold and the untouched set 0 is unchanged by an
access that maps to set 1. -/
theorem spec_c2_witness :
    setIndexOf cfgW 3 = (3 >>> cfgW.block_bits) % cfgW.num_sets ∧
    (getData cfgW 3 (initState cfgW)).cache.getD 0 []
      = (initState cfgW).cache.getD 0 [] := by
  have h := spec_c2 cfgW 3 (initState cfgW) 0 (by decide)
  exact ⟨h.1, h.2.2.1 (by decide)⟩

/-- Claim C3 (counterexample part): the claim asserts that invalid lines are
always chosen as victim before any valid line is evicted.  In the reachable
state after one access from the initial state, the first-filled line has
last_used = 0, tying with the still-invalid line 1 (also 0); the
lowest-index tie-break selects the valid line 0, so the next miss is a
MissWithEvict even though an invalid line exists. -/
theorem spec_c3_counterexample :
    (lineAt (tgtSet cfgB 7 stC3) 1).valid = false ∧
    (lineAt (tgtSet cfgB 7 stC3) 1).lru = 0 ∧
    findVictim (tgtSet cfgB 7 stC3) = 0 ∧
    (lineAt (tgtSet cfgB 7 stC3) 0).valid = true ∧
    outcomeOf cfgB 7 stC3 = Outcome.MissWithEvict := by
  decide

/-- Claim C3 as amended: on a miss in a well-formed state whose stored lru
stamps fit the 64-bit field, the victim is the line with the minimum
last_used, ties broken in favour of the lowest index (invalid lines are NOT
always preferred: a valid line stamped at clock value 0 ties with them and
wins on index); the outcome is MissWithEvict exactly when the victim is
valid (and only then is the eviction counter bumped), the victim is
overwritten with valid = true, the computed tag and the current clock value,
and the clock then advances. -/
theorem spec_c3_amended (cfg : CacheCfg) (addr : Nat) (st : SimState)
    (hwf : WfState cfg st)
    (hwidth : ∀ j, j < (tgtSet cfg addr st).length →
      (lineAt (tgtSet cfg addr st) j).lru ≤ ULONG_MAX)
    (hmiss : hitScan (tagOf cfg addr) st.stats.lru_count (tgtSet cfg addr st) = none) :
    findVictim (tgtSet cfg addr st) < (tgtSet cfg addr st).length ∧
    (∀ j, j < (tgtSet cfg addr st).length →
      (lineAt (tgtSet cfg addr st) (findVictim (tgtSet cfg addr st))).lru
        ≤ (lineAt (tgtSet cfg addr st) j).lru) ∧
    (∀ k, k < findVictim (tgtSet cfg addr st) →
      (lineAt (tgtSet cfg addr st) (findVictim (tgtSet cfg addr st))).lru
        < (lineAt (tgtSet cfg addr st) k).lru) ∧
    (outcomeOf cfg addr st = Outcome.MissWithEvict ↔
      (lineAt (tgtSet cfg addr st) (findVictim (tgtSet cfg addr st))).valid = true) ∧
    ((getData cfg addr st).stats.evictions =
      if (lineAt (tgtSet cfg addr st) (findVictim (tgtSet cfg addr st))).valid
      then (st.stats.evictions + 1) % UINT_MOD else st.stats.evictions) ∧
    tgtSet cfg addr (getData cfg addr st) =
      (tgtSet cfg addr st).set (findVictim (tgtSet cfg addr st))
        { valid := true, tag := tagOf cfg addr, lru := st.stats.lru_count } ∧
    (getData cfg addr st).stats.lru_count = (st.stats.lru_count + 1) % ULL_MOD := by
  have hnnil := tgtSet_ne_nil cfg addr st hwf
  have hmin := findVictim_min (tgtSet cfg addr st) hnnil hwidth
  refine ⟨findVictim_lt _ hnnil, hmin.1, hmin.2, ?_, ?_, ?_, ?_⟩
  · rw [outcomeOf_of_miss cfg addr st hmiss]
    cases hv : (lineAt (tgtSet cfg addr st) (findVictim (tgtSet cfg addr st))).valid with
    | true => simp
    | false => simp
  · rw [getData_of_miss cfg addr st hmiss]
  · rw [getData_of_miss cfg addr st hmiss]
    exact tgtSet_after_set cfg addr st _ _ (setIndexOf_lt_cacheLength cfg addr st hwf)
  · rw [getData_of_miss cfg addr st hmiss]

/-- Witness for the amended C3 at the reachable state stC3 and address 7. -/
theorem spec_c3_witness :
    findVictim (tgtSet cfgB 7 stC3) < (tgtSet cfgB 7 stC3).length ∧
    (getData cfgB 7 stC3).stats.lru_count = (stC3.stats.lru_count + 1) % ULL_MOD := by
  have h := spec_c3_amended cfgB 7 stC3 (by decide) (by decide) (by decide)
  exact ⟨h.1, h.2.2.2.2.2.2⟩

/-- Claim C4: the replay switch makes exactly one access for L and S, two
for M, and none for any other operation character; and each access updates
exactly the counters its outcome prescribes (Hit: hits + 1; MissNoEvict:
misses + 1; MissWithEvict: misses + 1 and evictions + 1), stated below the
wrap bound of the unsigned int counters. -/
theorem spec_c4 (cfg : CacheCfg) (addr : Nat) (st : SimState) (op : Char) :
    processOp cfg 'L' addr st = getData cfg addr st ∧
    processOp cfg 'S' addr st = getData cfg addr st ∧
    processOp cfg 'M' addr st = getData cfg addr (getData cfg addr st) ∧
    (op ≠ 'L' → op ≠ 'S' → op ≠ 'M' → processOp cfg op addr st = st) ∧
    (st.stats.hits + 1 < UINT_MOD → st.stats.misses + 1 < UINT_MOD →
      st.stats.evictions + 1 < UINT_MOD →
      ((outcomeOf cfg addr st = Outcome.Hit →
          (getData cfg addr st).stats.hits = st.stats.hits + 1 ∧
          (getData cfg addr st).stats.misses = st.stats.misses ∧
          (getData cfg addr st).stats.evictions = st.stats.evictions) ∧
        (outcomeOf cfg addr st = Outcome.MissNoEvict →
          (getData cfg addr st).stats.hits = st.stats.hits ∧
          (getData cfg addr st).stats.misses = st.stats.misses + 1 ∧
          (getData cfg addr st).stats.evictions = st.stats.evictions) ∧
        (outcomeOf cfg addr st = Outcome.MissWithEvict →
          (getData cfg addr st).stats.hits = st.stats.hits ∧
          (getData cfg addr st).stats.misses = st.stats.misses + 1 ∧
          (getData cfg addr st).stats.evictions = st.stats.evictions + 1))) := by
  refine ⟨processOp_L cfg addr st, processOp_S cfg addr st, processOp_M cfg addr st,
    processOp_other cfg op addr st, ?_⟩
  intro hb1 hb2 hb3
  refine ⟨?_, ?_, ?_⟩
  · intro ho
    rw [getData_stats_hit cfg addr st ho]
    exact ⟨Nat.mod_eq_of_lt hb1, rfl, rfl⟩
  · intro ho
    rw [getData_stats_missNo cfg addr st ho]
    exact ⟨rfl, Nat.mod_eq_of_lt hb2, rfl⟩
  · intro ho
    rw [getData_stats_missEv cfg addr st ho]
    exact ⟨rfl, Nat.mod_eq_of_lt hb2, Nat.mod_eq_of_lt hb3⟩

/-- Witness for C4 at the single-set geometry, address 0, initial state: the
L record is one access, and the first access (a MissNoEvict) bumps exactly
the miss counter. -/
theorem spec_c4_witness :
    processOp cfgB 'L' 0 (initState cfgB) = getData cfgB 0 (initState cfgB) ∧
    (getData cfgB 0 (initState cfgB)).stats.misses
      = (initState cfgB).stats.misses + 1 ∧
    (getData cfgB 0 (initState cfgB)).stats.evictions
      = (initState cfgB).stats.evictions := by
  have h := spec_c4 cfgB 0 (initState cfgB) 'X'
  have hc := (h.2.2.2.2 (by decide) (by decide) (by decide)).2.1 (by decide)
  exact ⟨h.1, hc.2.1, hc.2.2⟩

/-- Claim C5: after the first access of a Modify record, the second access
to the same address always hits, in any well-formed cache state; on the
empty (initial) cache a Modify yields exactly one miss then one hit. -/
theorem spec_c5 (cfg : CacheCfg) (addr : Nat) (st : SimState) (hwf : WfState cfg st) :
    outcomeOf cfg addr (getData cfg addr st) = Outcome.Hit ∧
    processOp cfg 'M' addr st = getData cfg addr (getData cfg addr st) ∧
    outcomeOf cfg addr (initState cfg) = Outcome.MissNoEvict ∧
    (processOp cfg 'M' addr (initState cfg)).stats.misses = 1 ∧
    (processOp cfg 'M' addr (initState cfg)).stats.hits = 1 := by
  have ha := hwf.2.2.1
  have hn := hwf.2.1
  have hwf0 := initState_wf cfg ha hn
  have h0 := initState_first_access cfg addr ha hn
  have h1 := getData_stats_missNo cfg addr (initState cfg) h0
  have h2 := getData_then_hit cfg addr (initState cfg) hwf0
  have h3 := getData_stats_hit cfg addr (getData cfg addr (initState cfg)) h2
  refine ⟨getData_then_hit cfg addr st hwf, processOp_M cfg addr st, h0, ?_, ?_⟩
  · rw [processOp_M, h3, h1]
    show ((initState cfg).stats.misses + 1) % UINT_MOD = 1
    simp only [initState]
    decide
  · rw [processOp_M, h3, h1]
    show ((initState cfg).stats.hits + 1) % UINT_MOD = 1
    simp only [initState]
    decide

/-- Witness for C5 at the single-set two-way geometry, address 9, from the
initial state. -/
theorem spec_c5_witness :
    outcomeOf cfgB 9 (getData cfgB 9 (initState cfgB)) = Outcome.Hit ∧
    (processOp cfgB 'M' 9 (initState cfgB)).stats.misses = 1 ∧
    (processOp cfgB 'M' 9 (initState cfgB)).stats.hits = 1 := by
  have h := spec_c5 cfgB 9 (initState cfgB) (by decide)
  exact ⟨h.1, h.2.2.2.1, h.2.2.2.2⟩

/-- Claim C6 (counterexample part): the claim says a line that fails to
parse is silently skipped and later records are still processed.  On the
trace L 10,1 / L z,1 / L 10,1 the middle line fails the hex conversion, the
fscanf while-loop exits, and the final record is never replayed: the run
ends with hits = 0, although replaying the last record would have produced
a hit (third conjunct). -/
theorem spec_c6_counterexample :
    (runTraceSim cfgB (initState cfgB) tr6).stats.hits = 0 ∧
    (runTraceSim cfgB (initState cfgB) tr6).stats.misses = 1 ∧
    (getData cfgB 16 (runTraceSim cfgB (initState cfgB) tr6)).stats.hits = 1 := by
  decide

/-- Claim C6 as amended: a record whose line has the well-formed shape
op hex,dec but an unrecognized operation character is skipped — no access,
no statistics change — and the records after it are still processed; a line
that fails to parse as that shape terminates the replay loop, leaving the
statistics at their accumulated values and dropping the rest of the trace. -/
theorem spec_c6_amended (cfg : CacheCfg) (st : SimState) (cs : List Char)
    (op : Char) (a : Nat) (sz : Int) (rest : List Char) :
    (fscanfRecord cs = some ((op, a, sz), rest) → op ≠ 'L' → op ≠ 'S' → op ≠ 'M' →
      runTraceSim cfg st cs = runTraceSim cfg st rest) ∧
    (fscanfRecord cs = none → runTraceSim cfg st cs = st) := by
  constructor
  · intro h h1 h2 h3
    rw [runTraceSim_step cfg st cs (op, a, sz) rest h]
    show runTraceSim cfg (processOp cfg op a st) rest = runTraceSim cfg st rest
    rw [processOp_other cfg op a st h1 h2 h3]
  · exact runTraceSim_none cfg st cs

/-- Witness for the amended C6: the instruction-style record I 10,1 parses,
is classified as Other, and leaves the replay exactly where it started. -/
theorem spec_c6_witness :
    runTraceSim cfgB (initState cfgB) [ 'I', ' ', '1', '0', ',', '1' ]
      = runTraceSim cfgB (initState cfgB) [] := by
  have h := spec_c6_amended cfgB (initState cfgB)
    [ 'I', ' ', '1', '0', ',', '1' ] 'I' 16 1 []
  exact h.1 (by decide) (by decide) (by decide) (by decide)

/-- Claim C7 (code bug): the claim says that after N*E accesses with
pairwise-distinct (set, tag) pairs covering every set E times, every line is
valid and no eviction has occurred.  Evaluating the code at N = 1, E = 2
(geometry s = 0, b = 0) with addresses 0 and 1 — two distinct tags, both in
the single set — the second access evicts the first line (its stamp 0 ties
with the invalid line and wins the lowest-index tie-break): the eviction
counter is already 1 and line 1 is still invalid. -/
theorem spec_c7_bug :
    stC7.stats.evictions = 1 ∧
    (lineAt (tgtSet cfgB 0 stC7) 1).valid = false ∧
    stC7.stats.misses = 2 ∧
    stC7.stats.hits = 0 := by
  decide

/-- Claim C8 (code bug): the claim says any configuration with a
non-positive geometry value or a missing trace path makes the program
report a configuration error and exit NON-ZERO before the core runs.  Two
divergences, evaluated on the model of main.  (1) With idx_bits = 0 the
check at line 202 fires, the message and usage are printed and the core is
never constructed (no stats) — but help() ends in exit(0) (csim.c line
166), reached before main's exit(1) on line 205, so the process exit status
is 0, not non-zero; the unreachable exit(1), and the spec's own "exit code
1", show the non-zero exit was the intent and help's exit(0) the slip.
(2) A negative value such as idx_bits = -1 passes the equality-with-zero
check entirely: no configuration error is reported and the simulation
branch is taken. -/
theorem spec_c8_bug :
    mainRun 0 1 1 (some [ 't' ]) [] = (0, none) ∧
    argsCheckFails (-1) 1 1 (some [ 't' ]) = false ∧
    (mainRun (-1) 1 1 (some [ 't' ]) []).2.isSome = true := by
  exact ⟨rfl, rfl, rfl⟩

/-- Claim C9: one access preserves the invariants that no two valid lines
of a set share a tag, that every stored stamp fits the 64-bit field, that
every valid line was stamped strictly before the current clock, and that
the stamps of valid lines are pairwise distinct across the whole cache; the
access stamps the touched line (hit or insertion) with the current clock
value and then strictly increments the clock (below the 64-bit wrap). -/
theorem spec_c9 (cfg : CacheCfg) (addr : Nat) (st : SimState)
    (hwf : WfState cfg st) (htags : TagsOk st) (hwidth : LruWidthOk st)
    (hfresh : LruFreshOk st) (hdist : LruDistinctOk st)
    (hclk : st.stats.lru_count < ULONG_MAX) :
    TagsOk (getData cfg addr st) ∧ LruWidthOk (getData cfg addr st) ∧
    LruFreshOk (getData cfg addr st) ∧ LruDistinctOk (getData cfg addr st) ∧
    (getData cfg addr st).stats.lru_count = st.stats.lru_count + 1 ∧
    (∃ j, j < (tgtSet cfg addr (getData cfg addr st)).length ∧
      (lineAt (tgtSet cfg addr (getData cfg addr st)) j).valid = true ∧
      (lineAt (tgtSet cfg addr (getData cfg addr st)) j).tag = tagOf cfg addr ∧
      (lineAt (tgtSet cfg addr (getData cfg addr st)) j).lru = st.stats.lru_count) := by
  obtain ⟨a, b, c, d, e⟩ := getData_invariants cfg addr st hwf htags hwidth hfresh hdist hclk
  exact ⟨a, b, c, d, e, getData_present cfg addr st hwf⟩

/-- Witness for C9 at the reachable state stC3, address 4. -/
theorem spec_c9_witness :
    TagsOk (getData cfgB 4 stC3) ∧
    (getData cfgB 4 stC3).stats.lru_count = stC3.stats.lru_count + 1 := by
  have htags : TagsOk stC3 := by
    intro i hi j hj k hk hne hvj hvk
    have hi0 : i = 0 := by
      have hc : stC3.cache.length = 1 := by decide
      omega
    subst hi0
    have hl : (setAt stC3 0).length = 2 := by decide
    rw [hl] at hj hk
    interval_cases j <;> interval_cases k <;> (revert hne hvj hvk; decide)
  have hdist : LruDistinctOk stC3 := by
    intro i hi k hk j hj l hl hne hvj hvl
    have hi0 : i = 0 := by
      have hc : stC3.cache.length = 1 := by decide
      omega
    have hk0 : k = 0 := by
      have hc : stC3.cache.length = 1 := by decide
      omega
    subst hi0
    subst hk0
    have hsl : (setAt stC3 0).length = 2 := by decide
    rw [hsl] at hj hl
    interval_cases j <;> interval_cases l <;> (revert hne hvj hvl; decide)
  have h := spec_c9 cfgB 4 stC3 (by decide) htags (by decide) (by decide)
    hdist (by decide)
  exact ⟨h.1, h.2.2.2.2.1⟩

/-- Claim C10: replaying any trace from the zeroed statistics keeps
evictions at most misses and makes hits + misses equal the number of access
calls performed (below the unsigned int wrap bound); each single access
bumps exactly one of hits or misses by one and bumps evictions only in the
same call that bumps misses — no counter is ever decremented. -/
theorem spec_c10 (cfg : CacheCfg) (cs : List Char)
    (hb : numAccesses cs < UINT_MOD) :
    (runTraceSim cfg (initState cfg) cs).stats.hits
      + (runTraceSim cfg (initState cfg) cs).stats.misses = numAccesses cs ∧
    (runTraceSim cfg (initState cfg) cs).stats.evictions
      ≤ (runTraceSim cfg (initState cfg) cs).stats.misses ∧
    (∀ (st : SimState) (addr : Nat),
      st.stats.hits + st.stats.misses + 1 < UINT_MOD →
      st.stats.evictions ≤ st.stats.misses →
      (((getData cfg addr st).stats.hits = st.stats.hits + 1 ∧
        (getData cfg addr st).stats.misses = st.stats.misses ∧
        (getData cfg addr st).stats.evictions = st.stats.evictions) ∨
       ((getData cfg addr st).stats.hits = st.stats.hits ∧
        (getData cfg addr st).stats.misses = st.stats.misses + 1 ∧
        ((getData cfg addr st).stats.evictions = st.stats.evictions ∨
         (getData cfg addr st).stats.evictions = st.stats.evictions + 1)))) := by
  have hz1 : (initState cfg).stats.hits = 0 := rfl
  have hz2 : (initState cfg).stats.misses = 0 := rfl
  have hz3 : (initState cfg).stats.evictions = 0 := rfl
  have h := runTraceSim_counts cfg cs.length cs (le_refl _) (initState cfg)
    (by rw [hz1, hz2]; omega) (by rw [hz3, hz2])
  refine ⟨?_, h.2, ?_⟩
  · have h1 := h.1
    rw [hz1, hz2] at h1
    omega
  · intro st addr hb1 hev1
    exact getData_counts cfg addr st hb1 hev1

/-- Witness for C10 on the one-record trace L 5,1. -/
theorem spec_c10_witness :
    (runTraceSim cfgB (initState cfgB) [ 'L', ' ', '5', ',', '1' ]).stats.hits
      + (runTraceSim cfgB (initState cfgB) [ 'L', ' ', '5', ',', '1' ]).stats.misses
      = numAccesses [ 'L', ' ', '5', ',', '1' ] ∧
    (runTraceSim cfgB (initState cfgB) [ 'L', ' ', '5', ',', '1' ]).stats.evictions
      ≤ (runTraceSim cfgB (initState cfgB) [ 'L', ' ', '5', ',', '1' ]).stats.misses := by
  have h := spec_c10 cfgB [ 'L', ' ', '5', ',', '1' ] (by decide)
  exact ⟨h.1, h.2.1⟩
